import Mathlib

/-!
Shallow embedding of the rotonde-uavtalk bridge: the dispatch hub
(`src/dispatcher/dispatcher.go`) and the UAVTalk framing/codec layer
(`src/uavtalkconnection/uavtalk.go`).  Machine integers are modelled as
`Nat` with explicit `% 2^w` where the source truncates; Go byte slices
are `List Nat` (each entry `< 256` where produced by the embedding);
fallible Go functions return `Except`/`GoResult`; a Go runtime panic
(index or slice out of range) is an explicit abnormal result.
-/

namespace Bridge

/-- Per-element wire width plus identity data of one schema field
(`common.FieldDefinition`; the parts of the record used by the code
under `src/`).  `size` stands for the resolved `FieldTypeInfo` wire
width of one element. -/
structure Field where
  name : String
  type : String
  size : Nat
  elements : Nat
  elementNames : List String
  options : List String
  cloneOf : String
  deriving Repr, DecidableEq, Inhabited

/-- Schema for one object type (`common.Definition`, the parts used by
the code under `src/`). -/
structure Definition where
  objectID : Nat
  name : String
  singleInstance : Bool
  fields : List Field
  deriving Repr, DecidableEq, Inhabited

/-- Modelled from the spec: `common.Definitions.GetDefinitionForObjectID`
(Schema Registry `lookupByID`, spec 4.1) is not under `src/`; per the
spec it answers lookups by the 32-bit identifier, `NotFound` otherwise.
`none` stands for the non-nil error. -/
def getDefinitionForObjectID : List Definition → Nat → Option Definition
  | [], _ => none
  | d :: ds, oid => if d.objectID = oid then some d else getDefinitionForObjectID ds oid

/-- A decoded value map: ordered association list from field name to the
per-element wire integers (`map[string]interface` of the source, with
values taken as their little-endian wire integers). -/
def DataMap := List (String × List Nat)
deriving DecidableEq, Inhabited

/-- `dispatcher.Update` message. -/
structure Update where
  objectID : Nat
  instanceID : Nat
  data : DataMap
  deriving DecidableEq

/-- `dispatcher.Request` message. -/
structure Request where
  objectID : Nat
  instanceID : Nat
  deriving DecidableEq

/-- A message delivered onto a connection inbound queue. -/
inductive Msg where
  | update (u : Update)
  | request (r : Request)
  | definition (d : Definition)
  deriving DecidableEq

/-- `dispatcher.Connection`: the hub-side state of one peer.  `inChan`
models the inbound queue as the list of messages delivered so far
(a channel send appends). -/
structure Connection where
  definitions : List Definition
  subscriptions : List Nat
  inChan : List Msg
  deriving DecidableEq

/-- `dispatcher.dispatchRequest`: walk the connections in registration
order; on the first connection whose `GetDefinitionForObjectID` lookup
returns a non-nil error (the definition is NOT known), send the request
to its inbound queue and return. -/
def dispatchRequest : List Connection → Request → List Connection
  | [], _ => []
  | c :: cs, req =>
    match getDefinitionForObjectID c.definitions req.objectID with
    | none => { c with inChan := c.inChan ++ [Msg.request req] } :: cs
    | some _ => c :: dispatchRequest cs req

/-- The `subscribed` flag loop of `dispatcher.dispatchUpdate`: fold over
the subscription list, setting the flag on a match. -/
def subscribedTo (c : Connection) (oid : Nat) : Bool :=
  c.subscriptions.foldl (fun s o => if o = oid then true else s) false

/-- The indexed loop body of `dispatcher.dispatchUpdate`: `i` is the
index of the head connection. -/
def dispatchUpdateGo : List Connection → Nat → Nat → Update → List Connection
  | [], _, _, _ => []
  | c :: cs, i, frm, u =>
    (if i = frm then c
     else if subscribedTo c u.objectID then
       { c with inChan := c.inChan ++ [Msg.update u] }
     else c) :: dispatchUpdateGo cs (i + 1) frm u

/-- `dispatcher.dispatchUpdate`: skip the sender index, skip connections
whose subscription list does not contain the objectID, send to the
rest. -/
def dispatchUpdate (conns : List Connection) (frm : Nat) (u : Update) : List Connection :=
  dispatchUpdateGo conns 0 frm u

/-- The `Subscription` case of `dispatcher.processChannels`: append the
objectID to the sender connection's subscription list. -/
def subscribe (conns : List Connection) (s : Nat) (oid : Nat) : List Connection :=
  match conns.get? s with
  | none => conns
  | some c => conns.set s { c with subscriptions := c.subscriptions ++ [oid] }

/-- One `reflect.SelectCase` of the hub loop: either the case reading
`connectionChan` or the case reading a connection's `OutChan`
(identified here by the connection value it was built from). -/
inductive SelCase where
  | connectionChan
  | conn (c : Connection)
  deriving DecidableEq

/-- The `dispatcher.Dispatcher` state relevant to the wait-set
bookkeeping: the `connections` slice and the `cases` slice. -/
structure Dispatcher where
  connections : List Connection
  cases : List SelCase
  deriving DecidableEq

/-- `dispatcher.NewDispatcher`: empty connection list, one select case
for `connectionChan`. -/
def NewDispatcher : Dispatcher :=
  { connections := [], cases := [SelCase.connectionChan] }

/-- `dispatcher.addConnection`: append the connection and a select case
for its `OutChan`. -/
def addConnection (d : Dispatcher) (c : Connection) : Dispatcher :=
  { connections := d.connections ++ [c],
    cases := d.cases ++ [SelCase.conn c] }

/-- `dispatcher.removeConnectionAt`: when `index` is in range, the
shift-left copies followed by the one-element truncations remove
`connections[index]` and `cases[index+1]`; when `index` is past the end
the copies are no-ops and the truncations drop the last element of each
slice. -/
def removeConnectionAt (d : Dispatcher) (index : Nat) : Dispatcher :=
  if index < d.connections.length then
    { connections := d.connections.take index ++ d.connections.drop (index + 1),
      cases := d.cases.take (index + 1) ++ d.cases.drop (index + 2) }
  else
    { connections := d.connections.dropLast, cases := d.cases.dropLast }

/-- A wait-set mutating hub operation: a connection joining
(`addConnection`) or a removal after a broken channel
(`removeConnectionAt`). -/
inductive HubOp where
  | add (c : Connection)
  | remove (index : Nat)

/-- Apply one hub operation to the dispatcher state. -/
def applyOp (d : Dispatcher) : HubOp → Dispatcher
  | HubOp.add c => addConnection d c
  | HubOp.remove i => removeConnectionAt d i

/-- Apply a sequence of hub operations in order. -/
def applyOps (d : Dispatcher) : List HubOp → Dispatcher
  | [] => d
  | op :: ops => applyOps (applyOp d op) ops

/-- Every `remove` in the sequence carries an index valid in the state
it is applied to. -/
def validOps : Dispatcher → List HubOp → Prop
  | _, [] => True
  | d, op :: ops =>
    (match op with
     | HubOp.add _ => True
     | HubOp.remove i => i < d.connections.length) ∧ validOps (applyOp d op) ops

/-- The wait-set alignment invariant: the cases slice is exactly the
`connectionChan` case followed by one `OutChan` case per connection, in
the same order. -/
def hubInv (d : Dispatcher) : Prop :=
  d.cases = SelCase.connectionChan :: d.connections.map SelCase.conn

/-- `uavtalkconnection` constants. -/
def versionMask : Nat := 0x20

def shortHeaderLength : Nat := 8

def objectCmd : Nat := 0

def objectRequest : Nat := 1

def objectCmdWithAck : Nat := 2

def objectAck : Nat := 3

def objectNack : Nat := 4

/-- One CRC-8 shift step: shift left, fold the top bit back with the
polynomial. -/
def crc8UpdateBit (c : Nat) : Nat :=
  if 128 ≤ c then ((c % 128) * 2) ^^^ 7 else c * 2

/-- One CRC-8 byte step. -/
def crc8Byte (c b : Nat) : Nat :=
  crc8UpdateBit^[8] ((c ^^^ b) % 256)

/-- Modelled from the spec: `computeCrc8` is not under `src/`; the spec
(design note on the checksum polynomial) fixes only that it is a
deterministic 8-bit CRC over the given bytes from a seed, leaving the
exact variant open.  We instantiate the standard polynomial 0x07. -/
def computeCrc8 (seed : Nat) (data : List Nat) : Nat :=
  data.foldl crc8Byte seed

/-- Little-endian byte encoding of `v` in exactly `s` bytes (the
`binary.Write ... binary.LittleEndian` model; truncates above
`256 ^ s` as the fixed-width write does). -/
def leBytes : Nat → Nat → List Nat
  | 0, _ => []
  | s + 1, v => v % 256 :: leBytes s (v / 256)

/-- Little-endian value of a byte list. -/
def leNat : List Nat → Nat
  | [] => 0
  | b :: rest => b + 256 * leNat rest

/-- Go slice expression `l[a:b]` (callers establish `a ≤ b ≤ len`
before use; out-of-range slicing is modelled as an abnormal result at
each call site). -/
def goSlice (l : List Nat) (a b : Nat) : List Nat :=
  (l.drop a).take (b - a)

/-- `uavtalkconnection.byteArrayToInt16`:
`(uint16(b[1]) << 8) | uint16(b[0])`, on byte values equal to
`b[1] * 256 + b[0]`; callers pass exactly two bytes. -/
def byteArrayToInt16 (b : List Nat) : Nat :=
  (b.getD 1 0) % 256 * 256 + (b.getD 0 0) % 256

/-- `uavtalkconnection.byteArrayToInt32`: little-endian value of the
four bytes; callers pass exactly four bytes. -/
def byteArrayToInt32 (b : List Nat) : Nat :=
  (b.getD 3 0) % 256 * 16777216 + (b.getD 2 0) % 256 * 65536 +
    (b.getD 1 0) % 256 * 256 + (b.getD 0 0) % 256

/-- The result tuple of `packetComplete`: `(ok, from, to, err)`. -/
structure PCResult where
  ok : Bool
  frm : Nat
  upto : Nat
  err : Option String
  deriving DecidableEq, Repr

/-- The sync-byte scan loop of `packetComplete`: index of the first
0x3c byte. -/
def findSync : List Nat → Option Nat
  | [] => none
  | b :: rest => if b = 0x3c then some 0 else (findSync rest).map (· + 1)

/-- `uavtalkconnection.packetComplete`.  The Go code reads the 16-bit
length field at `packet[offset+2 : offset+4]` without checking that
those bytes exist; when they do not (`offset + 4 > len(packet)`), the
slice reads past the end of the buffer (a bounds panic, or stale bytes
beyond the logical length when the backing array is larger), modelled
here as the abnormal `Except.error` outcome. -/
def packetComplete (packet : List Nat) : Except String PCResult :=
  match findSync packet with
  | none => Except.ok ⟨false, 0, 0, none⟩
  | some offset =>
    if offset + 4 ≤ packet.length then
      if byteArrayToInt16 (goSlice packet (offset + 2) (offset + 4)) + 1 >
          packet.length - offset then
        Except.ok ⟨false, 0, 0, none⟩
      else
        if packet.getD (offset + byteArrayToInt16 (goSlice packet (offset + 2) (offset + 4))) 0 ≠
            computeCrc8 0 (goSlice packet offset
              (offset + byteArrayToInt16 (goSlice packet (offset + 2) (offset + 4)))) then
          Except.ok ⟨false, offset,
            offset + byteArrayToInt16 (goSlice packet (offset + 2) (offset + 4)) + 1,
            some "Wrong crc8 !!!!"⟩
        else
          Except.ok ⟨true, offset,
            offset + byteArrayToInt16 (goSlice packet (offset + 2) (offset + 4)) + 1,
            none⟩
    else Except.error "slice bounds out of range"

/-- Association-list lookup in a value map (the Go map read
`packet.data[field.Name]`). -/
def lookupData : DataMap → String → Option (List Nat)
  | [], _ => none
  | (n, vs) :: rest, key => if n = key then some vs else lookupData rest key

/-- Modelled from the spec: `common.Fields.ByteLength` is not under
`src/`; per the spec a Definition's `byteLength` is the sum of
per-element wire sizes over its fields. -/
def fieldsByteLength (fields : List Field) : Nat :=
  (fields.map (fun f => f.size * f.elements)).sum

/-- Modelled from the spec: the payload encoder `mapToUAVTalk` is not
under `src/`; per spec 4.2 each field of `definition.fields`, in order,
is serialized element-by-element in its fixed little-endian wire width,
and a missing key in `data` is an encoding error. -/
def encodeFields : List Field → DataMap → Except String (List Nat)
  | [], _ => Except.ok []
  | f :: fs, data =>
    match lookupData data f.name with
    | none => Except.error "mapToUAVTalk: missing field value"
    | some vals =>
      if vals.length = f.elements then
        match encodeFields fs data with
        | Except.ok rest => Except.ok ((vals.map (leBytes f.size)).flatten ++ rest)
        | Except.error m => Except.error m
      else Except.error "mapToUAVTalk: wrong element count"

/-- `mapToUAVTalk definition data` (modelled from the spec, see
`encodeFields`). -/
def mapToUAVTalk (d : Definition) (data : DataMap) : Except String (List Nat) :=
  encodeFields d.fields data

/-- Decode `e` consecutive little-endian elements of width `size`. -/
def decodeElems (size : Nat) : Nat → List Nat → List Nat
  | 0, _ => []
  | e + 1, bytes => leNat (bytes.take size) :: decodeElems size e (bytes.drop size)

/-- Modelled from the spec: the payload decoder `uAVTalkToMap` is not
under `src/`; per spec 4.2 it is the inverse fixed-width read in field
order, failing when the bytes are shorter than the remaining
`byteLength` and consuming exactly `byteLength` bytes. -/
def decodeFields : List Field → List Nat → Except String DataMap
  | [], _ => Except.ok []
  | f :: fs, bytes =>
    if f.size * f.elements ≤ bytes.length then
      match decodeFields fs (bytes.drop (f.size * f.elements)) with
      | Except.ok rest =>
        Except.ok ((f.name, decodeElems f.size f.elements (bytes.take (f.size * f.elements))) :: rest)
      | Except.error m => Except.error m
    else Except.error "uAVTalkToMap: buffer shorter than byteLength"

/-- `uAVTalkToMap definition bytes` (modelled from the spec, see
`decodeFields`). -/
def uAVTalkToMap (d : Definition) (bytes : List Nat) : Except String DataMap :=
  decodeFields d.fields bytes

/-- `uavtalkconnection.Packet`. -/
structure Packet where
  definition : Definition
  cmd : Nat
  length : Nat
  instanceID : Nat
  data : DataMap
  deriving DecidableEq

/-- `Packet.toBinary`: sync, cmd with the version tag, 16-bit length,
32-bit objectID, the 16-bit instanceID when not single-instance, the
encoded payload for Cmd/CmdWithAck, then the CRC over everything
written so far. -/
def toBinary (p : Packet) : Except String (List Nat) :=
  if p.cmd = objectCmd ∨ p.cmd = objectCmdWithAck then
    match mapToUAVTalk p.definition p.data with
    | Except.error m => Except.error m
    | Except.ok dataBytes =>
      Except.ok
        (((0x3c :: (p.cmd ||| versionMask) % 256 ::
            (leBytes 2 p.length ++ leBytes 4 p.definition.objectID)) ++
          (if p.definition.singleInstance = false then leBytes 2 p.instanceID else []) ++
          dataBytes) ++
         [computeCrc8 0
           ((0x3c :: (p.cmd ||| versionMask) % 256 ::
              (leBytes 2 p.length ++ leBytes 4 p.definition.objectID)) ++
            (if p.definition.singleInstance = false then leBytes 2 p.instanceID else []) ++
            dataBytes)])
  else
    Except.ok
      (((0x3c :: (p.cmd ||| versionMask) % 256 ::
          (leBytes 2 p.length ++ leBytes 4 p.definition.objectID)) ++
        (if p.definition.singleInstance = false then leBytes 2 p.instanceID else []) ++ []) ++
       [computeCrc8 0
         ((0x3c :: (p.cmd ||| versionMask) % 256 ::
            (leBytes 2 p.length ++ leBytes 4 p.definition.objectID)) ++
          (if p.definition.singleInstance = false then leBytes 2 p.instanceID else []) ++ [])])

/-- `uavtalkconnection.newPacket`: the length field is the short header
size, plus 2 when not single-instance, plus the payload byte length for
Cmd/CmdWithAck, truncated to 16 bits by the `uint16` conversion. -/
def newPacket (d : Definition) (cmd instanceID : Nat) (data : DataMap) : Packet :=
  { definition := d
    cmd := cmd
    length :=
      if d.singleInstance = false then
        (shortHeaderLength +
          (if cmd = objectCmd ∨ cmd = objectCmdWithAck then fieldsByteLength d.fields else 0) +
          2) % 65536
      else
        (shortHeaderLength +
          (if cmd = objectCmd ∨ cmd = objectCmdWithAck then fieldsByteLength d.fields else 0)) % 65536
    instanceID := instanceID
    data := data }

/-- Outcome of a Go function that distinguishes a returned error from a
runtime panic. -/
inductive GoResult (α : Type) where
  | ok (a : α)
  | err (msg : String)
  | panic (msg : String)
  deriving DecidableEq

/-- The tail of `newPacketFromBinary` after the header fields are read:
slice off the payload (everything between the header and the trailing
checksum byte) and decode it for Cmd/CmdWithAck. -/
def finishPacket (d : Definition) (cmd length instanceID headerSize : Nat)
    (bp : List Nat) : GoResult Packet :=
  if headerSize + 1 ≤ bp.length then
    if cmd = objectCmd ∨ cmd = objectCmdWithAck then
      match uAVTalkToMap d (goSlice bp headerSize (bp.length - 1)) with
      | Except.error m => GoResult.err m
      | Except.ok data => GoResult.ok ⟨d, cmd, length, instanceID, data⟩
    else GoResult.ok ⟨d, cmd, length, instanceID, []⟩
  else GoResult.panic "slice bounds out of range"

/-- `uavtalkconnection.newPacketFromBinary`: read cmd (version tag
masked off), length and objectID; resolve the objectID against the
registry — an unresolved objectID is a returned error; read the
instanceID when the definition is not single-instance; then decode the
payload region. -/
def newPacketFromBinary (reg : List Definition) (bp : List Nat) : GoResult Packet :=
  if bp.length < 2 then GoResult.panic "index out of range"
  else if bp.length < 4 then GoResult.panic "slice bounds out of range"
  else if bp.length < 8 then GoResult.panic "slice bounds out of range"
  else
    match getDefinitionForObjectID reg (byteArrayToInt32 (goSlice bp 4 8)) with
    | none => GoResult.err "GetDefinitionForObjectID found nothing"
    | some d =>
      if d.singleInstance = false then
        if bp.length < 10 then GoResult.panic "slice bounds out of range"
        else
          finishPacket d ((bp.getD 1 0) ^^^ versionMask)
            (byteArrayToInt16 (goSlice bp 2 4)) (byteArrayToInt16 (goSlice bp 8 10))
            (shortHeaderLength + 2) bp
      else
        finishPacket d ((bp.getD 1 0) ^^^ versionMask)
          (byteArrayToInt16 (goSlice bp 2 4)) 0 shortHeaderLength bp

/-- The inner frame-extraction loop of `uavtalkconnection.Start`'s read
goroutine: repeatedly run `packetComplete`; stop (retaining the buffer)
on the incomplete outcome; on a complete frame decode it, emitting the
packet on success and logging the error otherwise; on a checksum-invalid
candidate log it; in both non-stopping cases discard the bytes up to
`to` and loop.  Returns the emitted packets and the retained buffer;
a modelled panic aborts. -/
def readLoop (reg : List Definition) (packet : List Nat) :
    GoResult (List Packet × List Nat) :=
  match h : packetComplete packet with
  | Except.error m => GoResult.panic m
  | Except.ok r =>
    if hok : r.err = none ∧ r.ok = false then GoResult.ok ([], packet)
    else
      have hadv : (packet.drop r.upto).length < packet.length := by
        have hcase : r.ok = true ∨ r.err ≠ none := by
          by_cases he : r.err = none
          · cases hko : r.ok with
            | false => exact absurd ⟨he, hko⟩ hok
            | true => exact Or.inl rfl
          · exact Or.inr he
        rw [List.length_drop]
        unfold packetComplete at h
        split at h
        · injection h with h2
          subst h2
          rcases hcase with hc | hc <;> simp at hc
        · split at h
          · split at h
            · injection h with h2
              subst h2
              rcases hcase with hc | hc <;> simp at hc
            · split at h
              · injection h with h2
                subst h2
                simp only [gt_iff_lt, not_lt] at *
                omega
              · injection h with h2
                subst h2
                simp only [gt_iff_lt, not_lt] at *
                omega
          · simp at h
      if r.err = none then
        match newPacketFromBinary reg (goSlice packet r.frm r.upto) with
        | GoResult.panic m => GoResult.panic m
        | GoResult.err _ => readLoop reg (packet.drop r.upto)
        | GoResult.ok p =>
          match readLoop reg (packet.drop r.upto) with
          | GoResult.ok (ps, rest) => GoResult.ok (p :: ps, rest)
          | GoResult.err m => GoResult.err m
          | GoResult.panic m => GoResult.panic m
      else readLoop reg (packet.drop r.upto)
termination_by packet.length
decreasing_by
all_goals exact hadv

/-- Modelled from the spec: `common.Fields.FieldForName` is not under
`src/`; it resolves a field of the same Definition by name. -/
def fieldForName : List Field → String → Option Field
  | [], _ => none
  | f :: fs, n => if f.name = n then some f else fieldForName fs n

/-- One iteration of the clone-resolution loop of
`uavtalkconnection.newDefinition`: if the field at `i` has a non-empty
`cloneOf`, look the source field up by name in the current state and
overwrite the whole field with it, restoring the field's own name and
cloneOf. -/
def resolveClonesStep (fields : List Field) (i : Nat) : Except String (List Field) :=
  match fields.get? i with
  | none => Except.ok fields
  | some f =>
    if f.cloneOf = "" then Except.ok fields
    else
      match fieldForName fields f.cloneOf with
      | none => Except.error "FieldForName found nothing"
      | some src => Except.ok (fields.set i { src with name := f.name, cloneOf := f.cloneOf })

/-- The clone-resolution loop, iterating `i` over the field indices in
order (`n` counts the remaining iterations). -/
def resolveClonesGo : Nat → Nat → List Field → Except String (List Field)
  | 0, _, fields => Except.ok fields
  | n + 1, i, fields =>
    match resolveClonesStep fields i with
    | Except.error m => Except.error m
    | Except.ok fields2 => resolveClonesGo n (i + 1) fields2

/-- The `create clones` pass of `uavtalkconnection.newDefinition`. -/
def resolveClones (fields : List Field) : Except String (List Field) :=
  resolveClonesGo fields.length 0 fields

/-- Well-formed value map for a field list: one entry per field, in
field order, with the field's element count and values within the
field's wire width. -/
def wellFormedData : List Field → DataMap → Prop
  | [], data => data = []
  | f :: fs, data =>
    match data with
    | [] => False
    | (n, vals) :: rest =>
      n = f.name ∧ vals.length = f.elements ∧ (∀ v ∈ vals, v < 256 ^ f.size) ∧
        wellFormedData fs rest

/-! ## Theorems -/

theorem dispatchUpdateGo_get? (conns : List Connection) (base frm : Nat) (u : Update) (i : Nat) :
    (dispatchUpdateGo conns base frm u).get? i =
      (conns.get? i).map (fun c =>
        if base + i = frm then c
        else if subscribedTo c u.objectID then
          { c with inChan := c.inChan ++ [Msg.update u] }
        else c) := by
  induction conns generalizing base i with
  | nil => simp [dispatchUpdateGo]
  | cons c cs ih =>
    cases i with
    | zero => simp [dispatchUpdateGo]
    | succ i =>
      have harith : base + 1 + i = base + (i + 1) := by omega
      simp only [dispatchUpdateGo, List.get?_cons_succ]
      rw [ih (base + 1) i]
      simp only [harith]

/-- C5: for every hub state and Update received from connection `frm`,
connection `i` receives the Update on its inbound queue exactly when
`i ≠ frm` and its subscription list contains the Update's objectID;
every other inbound queue is left unchanged. -/
theorem dispatchUpdate_routes_exactly (conns : List Connection) (frm : Nat) (u : Update)
    (i : Nat) (h : i < conns.length) :
    ((dispatchUpdate conns frm u).get? i).map Connection.inChan =
      (conns.get? i).map (fun c =>
        c.inChan ++ (if i ≠ frm ∧ subscribedTo c u.objectID then [Msg.update u] else [])) := by
  have hg := dispatchUpdateGo_get? conns 0 frm u i
  unfold dispatchUpdate
  rw [hg]
  cases hc : conns.get? i with
  | none => simp
  | some c =>
    simp only [Option.map_some, Nat.zero_add]
    by_cases hif : i = frm
    · simp [hif]
    · by_cases hsub : subscribedTo c u.objectID
      · simp [hif, hsub]
      · simp [hif, hsub]

theorem dispatchUpdate_routes_exactly_witness :
    (1 < 2 ∧
      ((dispatchUpdate
          [⟨[], [], []⟩, ⟨[], [7], []⟩] 0 ⟨7, 0, []⟩).get? 1).map Connection.inChan =
        (([⟨[], [], []⟩, ⟨[], [7], []⟩] : List Connection).get? 1).map (fun c =>
          c.inChan ++
            (if 1 ≠ 0 ∧ subscribedTo c (Update.mk 7 0 []).objectID
             then [Msg.update ⟨7, 0, []⟩] else []))) :=
  ⟨by decide,
   dispatchUpdate_routes_exactly [⟨[], [], []⟩, ⟨[], [7], []⟩] 0 ⟨7, 0, []⟩ 1 (by decide)⟩

/-- C1 (failing input): `dispatchRequest` delivers the Request to the
first connection whose definitions do NOT contain the objectID.  With
connection 0 knowing nothing and connection 1 owning objectID 5, the
Request lands on connection 0's inbound queue and the owner receives
nothing — the inverse of the documented owner-routing policy. -/
theorem dispatchRequest_delivers_to_nonowner :
    dispatchRequest
        [⟨[], [], []⟩, ⟨[⟨5, "D", true, []⟩], [], []⟩] ⟨5, 0⟩ =
      [⟨[], [], [Msg.request ⟨5, 0⟩]⟩, ⟨[⟨5, "D", true, []⟩], [], []⟩] := by
  rfl

theorem subscribedTo_append_self (c : Connection) (l : List Nat) (x : Nat) :
    subscribedTo { c with subscriptions := l ++ [x] } x = true := by
  simp [subscribedTo, List.foldl_append]

theorem subscribe_eq_set (l : List Connection) (i x : Nat) (c : Connection)
    (h : l.get? i = some c) :
    subscribe l i x = l.set i { c with subscriptions := c.subscriptions ++ [x] } := by
  unfold subscribe; rw [h]

/-- C8: subscribing connection `s` once or twice to objectID `x` yields
the same forwarding behavior: in either state an Update carrying `x`
from a different connection `frm` is delivered to `s` exactly once. -/
theorem subscribe_idempotent_forwarding (conns : List Connection) (s frm x : Nat) (u : Update)
    (hs : s < conns.length) (hne : s ≠ frm) (hx : u.objectID = x) :
    ((dispatchUpdate (subscribe conns s x) frm u).get? s).map Connection.inChan =
        (conns.get? s).map (fun c => c.inChan ++ [Msg.update u]) ∧
      ((dispatchUpdate (subscribe (subscribe conns s x) s x) frm u).get? s).map
          Connection.inChan =
        (conns.get? s).map (fun c => c.inChan ++ [Msg.update u]) := by
  have hc : conns.get? s = some (conns.get ⟨s, hs⟩) := List.get?_eq_get hs
  set c := conns.get ⟨s, hs⟩ with hcdef
  have hsub1 := subscribe_eq_set conns s x c hc
  have hget1 : (subscribe conns s x).get? s =
      some { c with subscriptions := c.subscriptions ++ [x] } := by
    rw [hsub1, List.get?_set_eq, hc]; rfl
  have hsub2 := subscribe_eq_set (subscribe conns s x) s x _ hget1
  have hget2 : (subscribe (subscribe conns s x) s x).get? s =
      some { c with subscriptions := (c.subscriptions ++ [x]) ++ [x] } := by
    rw [hsub2, List.get?_set_eq, hget1]; rfl
  have hfrm : ¬(0 + s = frm) := by omega
  constructor
  · rw [dispatchUpdate, dispatchUpdateGo_get?, hget1, hc]
    have hsubbed : subscribedTo { c with subscriptions := c.subscriptions ++ [x] }
        u.objectID = true := by
      rw [hx]; exact subscribedTo_append_self c c.subscriptions x
    simp [hfrm, hne, hsubbed]
  · rw [dispatchUpdate, dispatchUpdateGo_get?, hget2, hc]
    have hsubbed : subscribedTo { c with subscriptions := c.subscriptions ++ [x, x] }
        u.objectID = true := by
      rw [hx]
      have h2 := subscribedTo_append_self c (c.subscriptions ++ [x]) x
      simpa using h2
    simp [hfrm, hne, hsubbed]

theorem subscribe_idempotent_forwarding_witness :
    ((0 : Nat) < 2 ∧
      ((dispatchUpdate (subscribe [⟨[], [], []⟩, ⟨[], [], []⟩] 0 7) 1 ⟨7, 0, []⟩).get? 0).map
          Connection.inChan =
        (([⟨[], [], []⟩, ⟨[], [], []⟩] : List Connection).get? 0).map
          (fun c => c.inChan ++ [Msg.update ⟨7, 0, []⟩]) ∧
      ((dispatchUpdate (subscribe (subscribe [⟨[], [], []⟩, ⟨[], [], []⟩] 0 7) 0 7) 1
            ⟨7, 0, []⟩).get? 0).map Connection.inChan =
        (([⟨[], [], []⟩, ⟨[], [], []⟩] : List Connection).get? 0).map
          (fun c => c.inChan ++ [Msg.update ⟨7, 0, []⟩])) :=
  ⟨by decide,
   (subscribe_idempotent_forwarding [⟨[], [], []⟩, ⟨[], [], []⟩] 0 1 7 ⟨7, 0, []⟩
     (by decide) (by decide) rfl).1,
   (subscribe_idempotent_forwarding [⟨[], [], []⟩, ⟨[], [], []⟩] 0 1 7 ⟨7, 0, []⟩
     (by decide) (by decide) rfl).2⟩

theorem hubInv_new : hubInv NewDispatcher := rfl

theorem hubInv_add (d : Dispatcher) (c : Connection) (h : hubInv d) :
    hubInv (addConnection d c) := by
  unfold hubInv at h ⊢
  simp [addConnection, h]

theorem hubInv_remove (d : Dispatcher) (i : Nat) (h : hubInv d)
    (hi : i < d.connections.length) : hubInv (removeConnectionAt d i) := by
  unfold removeConnectionAt
  rw [if_pos hi]
  unfold hubInv at h ⊢
  simp [h, List.map_take, List.map_drop]

theorem hubInv_applyOps (ops : List HubOp) :
    ∀ d, hubInv d → validOps d ops → hubInv (applyOps d ops) := by
  induction ops with
  | nil => intro d h _; exact h
  | cons op ops ih =>
    intro d h hv
    obtain ⟨hop, hrest⟩ := hv
    refine ih (applyOp d op) ?_ hrest
    cases op with
    | add c => exact hubInv_add d c h
    | remove i => exact hubInv_remove d i h hop

/-- C10: through every valid sequence of add/remove operations from
`NewDispatcher`, the cases slice has exactly one more element than the
connections slice, its first case reads `connectionChan`, and the case
at position `i + 1` reads `connections[i]`'s `OutChan`: the select index
minus one always identifies the sending connection. -/
theorem hub_wait_set_aligned (ops : List HubOp) (hv : validOps NewDispatcher ops) :
    (applyOps NewDispatcher ops).cases.length =
        (applyOps NewDispatcher ops).connections.length + 1 ∧
      (applyOps NewDispatcher ops).cases.get? 0 = some SelCase.connectionChan ∧
      ∀ i, i < (applyOps NewDispatcher ops).connections.length →
        (applyOps NewDispatcher ops).cases.get? (i + 1) =
          ((applyOps NewDispatcher ops).connections.get? i).map SelCase.conn := by
  have h := hubInv_applyOps ops NewDispatcher hubInv_new hv
  unfold hubInv at h
  refine ⟨?_, ?_, ?_⟩
  · rw [h]; simp
  · rw [h]; rfl
  · intro i hi
    rw [h]
    simp [List.get?_map]

theorem packetComplete_advance (packet : List Nat) (r : PCResult)
    (h : packetComplete packet = Except.ok r) (hcase : r.ok = true ∨ r.err ≠ none) :
    r.frm < r.upto ∧ r.upto ≤ packet.length := by
  unfold packetComplete at h
  split at h
  · injection h with h2
    subst h2
    rcases hcase with hc | hc <;> simp at hc
  · split at h
    · split at h
      · injection h with h2
        subst h2
        rcases hcase with hc | hc <;> simp at hc
      · split at h
        · injection h with h2
          subst h2
          simp only [gt_iff_lt, not_lt] at *
          constructor <;> omega
        · injection h with h2
          subst h2
          simp only [gt_iff_lt, not_lt] at *
          constructor <;> omega
    · simp at h

/-- C6: whenever `packetComplete` reports a complete or checksum-invalid
candidate frame spanning `[frm, upto)`, `upto` is strictly greater than
`frm` and at most the buffer length, so discarding the bytes up to
`upto` strictly shrinks the retained buffer — a checksum-invalid
candidate is never reported with zero advance. -/
theorem scanner_always_advances (packet : List Nat) (r : PCResult)
    (h : packetComplete packet = Except.ok r) (hcr : r.ok = true ∨ r.err ≠ none) :
    r.frm < r.upto ∧ r.upto ≤ packet.length ∧
      (packet.drop r.upto).length < packet.length := by
  obtain ⟨h1, h2⟩ := packetComplete_advance packet r h hcr
  refine ⟨h1, h2, ?_⟩
  rw [List.length_drop]
  omega

set_option maxRecDepth 8192 in
theorem scanner_always_advances_witness :
    (⟨true, 0, 9, none⟩ : PCResult).frm < (⟨true, 0, 9, none⟩ : PCResult).upto ∧
      (⟨true, 0, 9, none⟩ : PCResult).upto ≤ ([60, 35, 8, 0, 2, 0, 0, 0, 41] : List Nat).length ∧
      (([60, 35, 8, 0, 2, 0, 0, 0, 41] : List Nat).drop
          (⟨true, 0, 9, none⟩ : PCResult).upto).length <
        ([60, 35, 8, 0, 2, 0, 0, 0, 41] : List Nat).length :=
  scanner_always_advances [60, 35, 8, 0, 2, 0, 0, 0, 41] ⟨true, 0, 9, none⟩
    (by rfl) (Or.inl rfl)

/-- C2 (failing input): on the buffer `[0x3c]` — a sync byte is present
but the 16-bit length field is not yet in the buffer — `packetComplete`
does not return the Incomplete outcome: the unchecked length-field
slice reads past the end of the buffer (the modelled abnormal
result). -/
theorem packetComplete_reads_past_end :
    packetComplete [0x3c] = Except.error "slice bounds out of range" := rfl

theorem hub_wait_set_aligned_witness :
    (applyOps NewDispatcher
        [HubOp.add ⟨[], [], []⟩, HubOp.add ⟨[], [5], []⟩, HubOp.remove 0]).cases.length =
      (applyOps NewDispatcher
        [HubOp.add ⟨[], [], []⟩, HubOp.add ⟨[], [5], []⟩, HubOp.remove 0]).connections.length
        + 1 :=
  (hub_wait_set_aligned [HubOp.add ⟨[], [], []⟩, HubOp.add ⟨[], [5], []⟩, HubOp.remove 0]
    (by simp [validOps, applyOp, addConnection, NewDispatcher])).1

theorem leBytes_length (s : Nat) : ∀ v, (leBytes s v).length = s := by
  induction s with
  | zero => intro v; rfl
  | succ s ih => intro v; simp [leBytes, ih]

theorem flatten_leBytes_length (s : Nat) (vals : List Nat) :
    ((vals.map (leBytes s)).flatten).length = s * vals.length := by
  induction vals with
  | nil => simp
  | cons v vs ih =>
    simp [leBytes_length, ih, Nat.mul_succ]
    omega

theorem encodeFields_skip (fs : List Field) (n : String) (vs : List Nat) (rest : DataMap)
    (hall : ∀ g ∈ fs, g.name ≠ n) :
    encodeFields fs ((n, vs) :: rest) = encodeFields fs rest := by
  induction fs with
  | nil => rfl
  | cons f fs ih =>
    have hn : ¬(n = f.name) := fun he => hall f (List.mem_cons_self f fs) he.symm
    simp only [encodeFields, lookupData, if_neg hn,
      ih (fun g hg => hall g (List.mem_cons_of_mem f hg))]

theorem encodeFields_ok (fields : List Field) :
    ∀ data, wellFormedData fields data → (fields.map Field.name).Nodup →
      ∃ enc, encodeFields fields data = Except.ok enc ∧
        enc.length = fieldsByteLength fields := by
  induction fields with
  | nil => intro data _ _; exact ⟨[], rfl, rfl⟩
  | cons f fs ih =>
    intro data hw hnd
    cases data with
    | nil => exact absurd hw (by simp [wellFormedData])
    | cons e rest =>
      obtain ⟨nv, vals⟩ := e
      obtain ⟨hn, hlen, hvb, hwrest⟩ := hw
      obtain ⟨hnotin, hndfs⟩ := List.nodup_cons.mp hnd
      have hallne : ∀ g ∈ fs, g.name ≠ nv := by
        intro g hg he
        exact hnotin (by rw [← hn, ← he]; exact List.mem_map_of_mem Field.name hg)
      obtain ⟨encRest, henc, hlenR⟩ := ih rest hwrest hndfs
      have hskip := encodeFields_skip fs nv vals rest hallne
      refine ⟨(vals.map (leBytes f.size)).flatten ++ encRest, ?_, ?_⟩
      · simp only [encodeFields, lookupData, if_pos hn, if_pos hlen, hskip, henc]
      · rw [List.length_append, flatten_leBytes_length, hlen, hlenR]
        simp [fieldsByteLength]

/-- C3 (counterexample): for the single-instance no-payload packet
built by `newPacket` with cmd Ack, the encoded frame has 9 bytes while
the packet's length field is 8 — `toBinary` output is one byte longer
than the length field, which therefore does not include the trailing
checksum byte. -/
theorem newPacket_length_counterexample :
    (toBinary (newPacket ⟨1, "E", true, []⟩ 3 0 [])).map List.length = Except.ok 9 ∧
      (newPacket ⟨1, "E", true, []⟩ 3 0 []).length = 8 :=
  ⟨rfl, rfl⟩

/-- C3 (amended): the 16-bit length field of a `newPacket` covers the
sync byte through the last payload byte, excluding the trailing
checksum byte: when the computed length fits in 16 bits, `toBinary`
returns exactly `length + 1` bytes. -/
theorem toBinary_length_amended (d : Definition) (cmd instanceID : Nat) (data : DataMap)
    (hw : wellFormedData d.fields data) (hnd : (d.fields.map Field.name).Nodup)
    (hfit : shortHeaderLength + fieldsByteLength d.fields + 2 < 65536) :
    ∃ bs, toBinary (newPacket d cmd instanceID data) = Except.ok bs ∧
      bs.length = (newPacket d cmd instanceID data).length + 1 := by
  obtain ⟨enc, henc, hlenc⟩ := encodeFields_ok d.fields data hw hnd
  by_cases hcmd : cmd = objectCmd ∨ cmd = objectCmdWithAck
  · unfold toBinary newPacket mapToUAVTalk
    simp only [if_pos hcmd, henc]
    refine ⟨_, rfl, ?_⟩
    by_cases hsi : d.singleInstance = false
    · simp only [if_pos hcmd, if_pos hsi]
      simp [leBytes_length, hlenc]
      rw [Nat.mod_eq_of_lt (by simp [shortHeaderLength] at hfit ⊢ <;> omega)]
      simp [shortHeaderLength]
      omega
    · simp only [if_pos hcmd, if_neg hsi]
      simp [leBytes_length, hlenc]
      rw [Nat.mod_eq_of_lt (by simp [shortHeaderLength] at hfit ⊢ <;> omega)]
      simp [shortHeaderLength]
      omega
  · unfold toBinary newPacket
    simp only [if_neg hcmd]
    refine ⟨_, rfl, ?_⟩
    by_cases hsi : d.singleInstance = false
    · simp only [if_neg hcmd, if_pos hsi]
      simp [leBytes_length]
      rw [Nat.mod_eq_of_lt (by simp [shortHeaderLength] at hfit ⊢ <;> omega)]
      simp [shortHeaderLength]
    · simp only [if_neg hcmd, if_neg hsi]
      simp [leBytes_length]
      rw [Nat.mod_eq_of_lt (by simp [shortHeaderLength] at hfit ⊢ <;> omega)]
      simp [shortHeaderLength]

theorem toBinary_length_amended_witness :
    ∃ bs,
      toBinary (newPacket
          ⟨0xCA32B032, "HomeLocation", true,
            [⟨"Latitude", "float32", 4, 1, [], [], ""⟩,
             ⟨"Longitude", "float32", 4, 1, [], [], ""⟩,
             ⟨"Altitude", "float32", 4, 1, [], [], ""⟩]⟩ 0 0
          [("Latitude", [0]), ("Longitude", [0]), ("Altitude", [0])]) = Except.ok bs ∧
        bs.length =
          (newPacket
            ⟨0xCA32B032, "HomeLocation", true,
              [⟨"Latitude", "float32", 4, 1, [], [], ""⟩,
               ⟨"Longitude", "float32", 4, 1, [], [], ""⟩,
               ⟨"Altitude", "float32", 4, 1, [], [], ""⟩]⟩ 0 0
            [("Latitude", [0]), ("Longitude", [0]), ("Altitude", [0])]).length + 1 :=
  toBinary_length_amended
    ⟨0xCA32B032, "HomeLocation", true,
      [⟨"Latitude", "float32", 4, 1, [], [], ""⟩,
       ⟨"Longitude", "float32", 4, 1, [], [], ""⟩,
       ⟨"Altitude", "float32", 4, 1, [], [], ""⟩]⟩ 0 0
    [("Latitude", [0]), ("Longitude", [0]), ("Altitude", [0])]
    (by simp [wellFormedData]) (by decide) (by decide)

theorem leNat_leBytes (s : Nat) : ∀ v, v < 256 ^ s → leNat (leBytes s v) = v := by
  induction s with
  | zero =>
    intro v hv
    simp [pow_zero] at hv
    simp [leBytes, leNat, hv]
  | succ s ih =>
    intro v hv
    simp only [leBytes, leNat]
    rw [ih (v / 256)
      ((Nat.div_lt_iff_lt_mul (by norm_num : 0 < 256)).mpr (by rw [← pow_succ]; exact hv))]
    omega

theorem decodeElems_roundtrip (s : Nat) (vals : List Nat) :
    ∀ (tl : List Nat), (∀ v ∈ vals, v < 256 ^ s) →
      decodeElems s vals.length ((vals.map (leBytes s)).flatten ++ tl) = vals := by
  induction vals with
  | nil => intro tl _; rfl
  | cons v vs ih =>
    intro tl hb
    simp only [List.map_cons, List.flatten_cons, List.length_cons, decodeElems,
      List.append_assoc]
    have htake : List.take s (leBytes s v ++ ((vs.map (leBytes s)).flatten ++ tl)) =
        leBytes s v := by
      have h0 := List.take_left (leBytes s v) ((vs.map (leBytes s)).flatten ++ tl)
      rwa [leBytes_length] at h0
    have hdrop : List.drop s (leBytes s v ++ ((vs.map (leBytes s)).flatten ++ tl)) =
        (vs.map (leBytes s)).flatten ++ tl := by
      have h0 := List.drop_left (leBytes s v) ((vs.map (leBytes s)).flatten ++ tl)
      rwa [leBytes_length] at h0
    rw [htake, hdrop, leNat_leBytes s v (hb v (List.mem_cons_self v vs)),
      ih tl (fun w hw => hb w (List.mem_cons_of_mem v hw))]

theorem decodeFields_encodeFields (fields : List Field) :
    ∀ (data : DataMap) (enc tl : List Nat), wellFormedData fields data →
      (fields.map Field.name).Nodup → encodeFields fields data = Except.ok enc →
      decodeFields fields (enc ++ tl) = Except.ok data := by
  induction fields with
  | nil =>
    intro data enc tl hw _ he
    injection he with h2
    subst h2
    subst hw
    rfl
  | cons f fs ih =>
    intro data enc tl hw hnd he
    cases data with
    | nil => exact absurd hw (by simp [wellFormedData])
    | cons e rest =>
      obtain ⟨nv, vals⟩ := e
      obtain ⟨hn, hlen, hvb, hwrest⟩ := hw
      obtain ⟨hnotin, hndfs⟩ := List.nodup_cons.mp hnd
      have hallne : ∀ g ∈ fs, g.name ≠ nv := by
        intro g hg hge
        exact hnotin (by rw [← hn, ← hge]; exact List.mem_map_of_mem Field.name hg)
      simp only [encodeFields, lookupData, if_pos hn, if_pos hlen,
        encodeFields_skip fs nv vals rest hallne] at he
      cases hrec : encodeFields fs rest with
      | error m => rw [hrec] at he; simp at he
      | ok encRest =>
        rw [hrec] at he
        injection he with h2
        subst h2
        have hflen : ((vals.map (leBytes f.size)).flatten).length = f.size * f.elements := by
          rw [flatten_leBytes_length, hlen]
        have hle : f.size * f.elements ≤
            (((vals.map (leBytes f.size)).flatten ++ encRest) ++ tl).length := by
          rw [List.length_append, List.length_append, hflen]
          omega
        unfold decodeFields
        rw [if_pos hle]
        have htake : List.take (f.size * f.elements)
            (((vals.map (leBytes f.size)).flatten ++ encRest) ++ tl) =
            (vals.map (leBytes f.size)).flatten := by
          rw [List.append_assoc, ← hflen, List.take_left]
        have hdrop : List.drop (f.size * f.elements)
            (((vals.map (leBytes f.size)).flatten ++ encRest) ++ tl) = encRest ++ tl := by
          rw [List.append_assoc, ← hflen, List.drop_left]
        rw [htake, hdrop, ih rest encRest tl hwrest hndfs hrec]
        have hdec : decodeElems f.size f.elements
            ((vals.map (leBytes f.size)).flatten) = vals := by
          have h0 := decodeElems_roundtrip f.size vals [] hvb
          rw [List.append_nil] at h0
          rw [← hlen, h0]
        simp only [hdec, hn]

theorem byteArrayToInt16_le (v : Nat) :
    byteArrayToInt16 [v % 256, v / 256 % 256] = v % 65536 := by
  have h : byteArrayToInt16 [v % 256, v / 256 % 256] =
      v / 256 % 256 % 256 * 256 + v % 256 % 256 := rfl
  rw [h]
  omega

theorem byteArrayToInt32_le (v : Nat) :
    byteArrayToInt32
      [v % 256, v / 256 % 256, v / 256 / 256 % 256, v / 256 / 256 / 256 % 256] =
      v % 4294967296 := by
  have h : byteArrayToInt32
      [v % 256, v / 256 % 256, v / 256 / 256 % 256, v / 256 / 256 / 256 % 256] =
      v / 256 / 256 / 256 % 256 % 256 * 16777216 + v / 256 / 256 % 256 % 256 * 65536 +
        v / 256 % 256 % 256 * 256 + v % 256 % 256 := rfl
  rw [h]
  omega

theorem cmdByte_roundtrip (cmd : Nat) (hcmd : cmd = objectCmd ∨ cmd = objectCmdWithAck) :
    ((cmd ||| versionMask) % 256) ^^^ versionMask = cmd := by
  rcases hcmd with h | h <;> subst h <;> decide

theorem newPacketFromBinary_multi (reg : List Definition) (d : Definition)
    (data : DataMap) (cmd L iid k : Nat) (enc : List Nat)
    (hreg : getDefinitionForObjectID reg d.objectID = some d)
    (hid : d.objectID < 4294967296) (hinst : iid < 65536)
    (hcmd : cmd = objectCmd ∨ cmd = objectCmdWithAck)
    (hsi : d.singleInstance = false)
    (hdec : decodeFields d.fields enc = Except.ok data) :
    newPacketFromBinary reg
      (0x3c :: (cmd ||| versionMask) % 256 :: L % 256 :: L / 256 % 256 ::
        d.objectID % 256 :: d.objectID / 256 % 256 :: d.objectID / 256 / 256 % 256 ::
        d.objectID / 256 / 256 / 256 % 256 :: iid % 256 :: iid / 256 % 256 ::
        (enc ++ [k])) =
      GoResult.ok ⟨d, cmd, L % 65536, iid, data⟩ := by
  have hbl : (0x3c :: (cmd ||| versionMask) % 256 :: L % 256 :: L / 256 % 256 ::
      d.objectID % 256 :: d.objectID / 256 % 256 :: d.objectID / 256 / 256 % 256 ::
      d.objectID / 256 / 256 / 256 % 256 :: iid % 256 :: iid / 256 % 256 ::
      (enc ++ [k])).length = 11 + enc.length := by
    simp only [List.length_cons, List.length_append, List.length_nil]
    omega
  unfold newPacketFromBinary
  rw [if_neg (by rw [hbl]; omega), if_neg (by rw [hbl]; omega), if_neg (by rw [hbl]; omega)]
  have h48 : goSlice
      (0x3c :: (cmd ||| versionMask) % 256 :: L % 256 :: L / 256 % 256 ::
        d.objectID % 256 :: d.objectID / 256 % 256 :: d.objectID / 256 / 256 % 256 ::
        d.objectID / 256 / 256 / 256 % 256 :: iid % 256 :: iid / 256 % 256 ::
        (enc ++ [k])) 4 8 =
      [d.objectID % 256, d.objectID / 256 % 256, d.objectID / 256 / 256 % 256,
        d.objectID / 256 / 256 / 256 % 256] := rfl
  rw [h48, byteArrayToInt32_le, Nat.mod_eq_of_lt hid, hreg]
  simp only [if_pos hsi, if_neg (show ¬(0x3c :: (cmd ||| versionMask) % 256 :: L % 256 ::
    L / 256 % 256 :: d.objectID % 256 :: d.objectID / 256 % 256 ::
    d.objectID / 256 / 256 % 256 :: d.objectID / 256 / 256 / 256 % 256 :: iid % 256 ::
    iid / 256 % 256 :: (enc ++ [k])).length < 10 by rw [hbl]; omega)]
  have h12 : goSlice
      (0x3c :: (cmd ||| versionMask) % 256 :: L % 256 :: L / 256 % 256 ::
        d.objectID % 256 :: d.objectID / 256 % 256 :: d.objectID / 256 / 256 % 256 ::
        d.objectID / 256 / 256 / 256 % 256 :: iid % 256 :: iid / 256 % 256 ::
        (enc ++ [k])) 2 4 = [L % 256, L / 256 % 256] := rfl
  have h810 : goSlice
      (0x3c :: (cmd ||| versionMask) % 256 :: L % 256 :: L / 256 % 256 ::
        d.objectID % 256 :: d.objectID / 256 % 256 :: d.objectID / 256 / 256 % 256 ::
        d.objectID / 256 / 256 / 256 % 256 :: iid % 256 :: iid / 256 % 256 ::
        (enc ++ [k])) 8 10 = [iid % 256, iid / 256 % 256] := rfl
  have hg1 : (0x3c :: (cmd ||| versionMask) % 256 :: L % 256 :: L / 256 % 256 ::
      d.objectID % 256 :: d.objectID / 256 % 256 :: d.objectID / 256 / 256 % 256 ::
      d.objectID / 256 / 256 / 256 % 256 :: iid % 256 :: iid / 256 % 256 ::
      (enc ++ [k])).getD 1 0 = (cmd ||| versionMask) % 256 := rfl
  rw [h12, h810, hg1, byteArrayToInt16_le, byteArrayToInt16_le, Nat.mod_eq_of_lt hinst,
    cmdByte_roundtrip cmd hcmd]
  unfold finishPacket
  rw [if_pos (by rw [hbl]; simp only [shortHeaderLength]; omega), if_pos hcmd]
  have hsl : goSlice
      (0x3c :: (cmd ||| versionMask) % 256 :: L % 256 :: L / 256 % 256 ::
        d.objectID % 256 :: d.objectID / 256 % 256 :: d.objectID / 256 / 256 % 256 ::
        d.objectID / 256 / 256 / 256 % 256 :: iid % 256 :: iid / 256 % 256 ::
        (enc ++ [k])) (shortHeaderLength + 2)
      ((0x3c :: (cmd ||| versionMask) % 256 :: L % 256 :: L / 256 % 256 ::
        d.objectID % 256 :: d.objectID / 256 % 256 :: d.objectID / 256 / 256 % 256 ::
        d.objectID / 256 / 256 / 256 % 256 :: iid % 256 :: iid / 256 % 256 ::
        (enc ++ [k])).length - 1) = enc := by
    unfold goSlice
    have hd : List.drop (shortHeaderLength + 2)
        (0x3c :: (cmd ||| versionMask) % 256 :: L % 256 :: L / 256 % 256 ::
          d.objectID % 256 :: d.objectID / 256 % 256 :: d.objectID / 256 / 256 % 256 ::
          d.objectID / 256 / 256 / 256 % 256 :: iid % 256 :: iid / 256 % 256 ::
          (enc ++ [k])) = enc ++ [k] := rfl
    have harith : (0x3c :: (cmd ||| versionMask) % 256 :: L % 256 :: L / 256 % 256 ::
        d.objectID % 256 :: d.objectID / 256 % 256 :: d.objectID / 256 / 256 % 256 ::
        d.objectID / 256 / 256 / 256 % 256 :: iid % 256 :: iid / 256 % 256 ::
        (enc ++ [k])).length - 1 - (shortHeaderLength + 2) = enc.length := by
      rw [hbl]
      simp only [shortHeaderLength]
      omega
    rw [hd, harith, List.take_left]
  rw [hsl]
  unfold uAVTalkToMap
  rw [hdec]

theorem newPacketFromBinary_single (reg : List Definition) (d : Definition)
    (data : DataMap) (cmd L k : Nat) (enc : List Nat)
    (hreg : getDefinitionForObjectID reg d.objectID = some d)
    (hid : d.objectID < 4294967296)
    (hcmd : cmd = objectCmd ∨ cmd = objectCmdWithAck)
    (hsi : d.singleInstance = true)
    (hdec : decodeFields d.fields enc = Except.ok data) :
    newPacketFromBinary reg
      (0x3c :: (cmd ||| versionMask) % 256 :: L % 256 :: L / 256 % 256 ::
        d.objectID % 256 :: d.objectID / 256 % 256 :: d.objectID / 256 / 256 % 256 ::
        d.objectID / 256 / 256 / 256 % 256 :: (enc ++ [k])) =
      GoResult.ok ⟨d, cmd, L % 65536, 0, data⟩ := by
  have hbl : (0x3c :: (cmd ||| versionMask) % 256 :: L % 256 :: L / 256 % 256 ::
      d.objectID % 256 :: d.objectID / 256 % 256 :: d.objectID / 256 / 256 % 256 ::
      d.objectID / 256 / 256 / 256 % 256 :: (enc ++ [k])).length = 9 + enc.length := by
    simp only [List.length_cons, List.length_append, List.length_nil]
    omega
  have hsi2 : ¬(d.singleInstance = false) := by rw [hsi]; simp
  unfold newPacketFromBinary
  rw [if_neg (by rw [hbl]; omega), if_neg (by rw [hbl]; omega), if_neg (by rw [hbl]; omega)]
  have h48 : goSlice
      (0x3c :: (cmd ||| versionMask) % 256 :: L % 256 :: L / 256 % 256 ::
        d.objectID % 256 :: d.objectID / 256 % 256 :: d.objectID / 256 / 256 % 256 ::
        d.objectID / 256 / 256 / 256 % 256 :: (enc ++ [k])) 4 8 =
      [d.objectID % 256, d.objectID / 256 % 256, d.objectID / 256 / 256 % 256,
        d.objectID / 256 / 256 / 256 % 256] := rfl
  rw [h48, byteArrayToInt32_le, Nat.mod_eq_of_lt hid, hreg]
  simp only [if_neg hsi2]
  have h12 : goSlice
      (0x3c :: (cmd ||| versionMask) % 256 :: L % 256 :: L / 256 % 256 ::
        d.objectID % 256 :: d.objectID / 256 % 256 :: d.objectID / 256 / 256 % 256 ::
        d.objectID / 256 / 256 / 256 % 256 :: (enc ++ [k])) 2 4 =
      [L % 256, L / 256 % 256] := rfl
  have hg1 : (0x3c :: (cmd ||| versionMask) % 256 :: L % 256 :: L / 256 % 256 ::
      d.objectID % 256 :: d.objectID / 256 % 256 :: d.objectID / 256 / 256 % 256 ::
      d.objectID / 256 / 256 / 256 % 256 :: (enc ++ [k])).getD 1 0 =
      (cmd ||| versionMask) % 256 := rfl
  rw [h12, hg1, byteArrayToInt16_le, cmdByte_roundtrip cmd hcmd]
  unfold finishPacket
  rw [if_pos (by rw [hbl]; simp only [shortHeaderLength]; omega), if_pos hcmd]
  have hsl : goSlice
      (0x3c :: (cmd ||| versionMask) % 256 :: L % 256 :: L / 256 % 256 ::
        d.objectID % 256 :: d.objectID / 256 % 256 :: d.objectID / 256 / 256 % 256 ::
        d.objectID / 256 / 256 / 256 % 256 :: (enc ++ [k])) shortHeaderLength
      ((0x3c :: (cmd ||| versionMask) % 256 :: L % 256 :: L / 256 % 256 ::
        d.objectID % 256 :: d.objectID / 256 % 256 :: d.objectID / 256 / 256 % 256 ::
        d.objectID / 256 / 256 / 256 % 256 :: (enc ++ [k])).length - 1) = enc := by
    unfold goSlice
    have hd : List.drop shortHeaderLength
        (0x3c :: (cmd ||| versionMask) % 256 :: L % 256 :: L / 256 % 256 ::
          d.objectID % 256 :: d.objectID / 256 % 256 :: d.objectID / 256 / 256 % 256 ::
          d.objectID / 256 / 256 / 256 % 256 :: (enc ++ [k])) = enc ++ [k] := rfl
    have harith : (0x3c :: (cmd ||| versionMask) % 256 :: L % 256 :: L / 256 % 256 ::
        d.objectID % 256 :: d.objectID / 256 % 256 :: d.objectID / 256 / 256 % 256 ::
        d.objectID / 256 / 256 / 256 % 256 :: (enc ++ [k])).length - 1 -
        shortHeaderLength = enc.length := by
      rw [hbl]
      simp only [shortHeaderLength]
      omega
    rw [hd, harith, List.take_left]
  rw [hsl]
  unfold uAVTalkToMap
  rw [hdec]

theorem leBytes_two (v : Nat) : leBytes 2 v = [v % 256, v / 256 % 256] := rfl

theorem leBytes_four (v : Nat) :
    leBytes 4 v =
      [v % 256, v / 256 % 256, v / 256 / 256 % 256, v / 256 / 256 / 256 % 256] := rfl

/-- C4: for a Definition resolvable in the registry, cmd in
Cmd/CmdWithAck, an instanceID and a well-formed data map, decoding the
frame produced by encoding succeeds and yields a Packet with the same
definition, cmd, instanceID (when not single-instance) and data map. -/
theorem encode_decode_roundtrip (reg : List Definition) (d : Definition)
    (cmd instanceID : Nat) (data : DataMap)
    (hcmd : cmd = objectCmd ∨ cmd = objectCmdWithAck)
    (hreg : getDefinitionForObjectID reg d.objectID = some d)
    (hid : d.objectID < 4294967296) (hinst : instanceID < 65536)
    (hw : wellFormedData d.fields data) (hnd : (d.fields.map Field.name).Nodup) :
    ∃ bs p, toBinary (newPacket d cmd instanceID data) = Except.ok bs ∧
      newPacketFromBinary reg bs = GoResult.ok p ∧
      p.definition = d ∧ p.cmd = cmd ∧
      (d.singleInstance = false → p.instanceID = instanceID) ∧ p.data = data := by
  obtain ⟨enc, henc, hlenc⟩ := encodeFields_ok d.fields data hw hnd
  have hdec0 : decodeFields d.fields enc = Except.ok data := by
    have h0 := decodeFields_encodeFields d.fields data enc [] hw hnd henc
    rwa [List.append_nil] at h0
  by_cases hsi : d.singleInstance = false
  · have hbs : toBinary (newPacket d cmd instanceID data) = Except.ok
        (0x3c :: (cmd ||| versionMask) % 256 ::
          (shortHeaderLength + fieldsByteLength d.fields + 2) % 65536 % 256 ::
          (shortHeaderLength + fieldsByteLength d.fields + 2) % 65536 / 256 % 256 ::
          d.objectID % 256 :: d.objectID / 256 % 256 :: d.objectID / 256 / 256 % 256 ::
          d.objectID / 256 / 256 / 256 % 256 :: instanceID % 256 ::
          instanceID / 256 % 256 ::
          (enc ++ [computeCrc8 0
            (0x3c :: (cmd ||| versionMask) % 256 ::
              (shortHeaderLength + fieldsByteLength d.fields + 2) % 65536 % 256 ::
              (shortHeaderLength + fieldsByteLength d.fields + 2) % 65536 / 256 % 256 ::
              d.objectID % 256 :: d.objectID / 256 % 256 ::
              d.objectID / 256 / 256 % 256 :: d.objectID / 256 / 256 / 256 % 256 ::
              instanceID % 256 :: instanceID / 256 % 256 :: enc)])) := by
      unfold toBinary newPacket mapToUAVTalk
      simp only [if_pos hcmd, henc, if_pos hsi, leBytes_two, leBytes_four,
        List.cons_append, List.nil_append, List.append_assoc]
    exact ⟨_, _, hbs,
      newPacketFromBinary_multi reg d data cmd
        ((shortHeaderLength + fieldsByteLength d.fields + 2) % 65536) instanceID _ enc
        hreg hid hinst hcmd hsi hdec0,
      rfl, rfl, fun _ => rfl, rfl⟩
  · have hsi2 : d.singleInstance = true := by
      revert hsi
      cases d.singleInstance <;> simp
    have hbs : toBinary (newPacket d cmd instanceID data) = Except.ok
        (0x3c :: (cmd ||| versionMask) % 256 ::
          (shortHeaderLength + fieldsByteLength d.fields) % 65536 % 256 ::
          (shortHeaderLength + fieldsByteLength d.fields) % 65536 / 256 % 256 ::
          d.objectID % 256 :: d.objectID / 256 % 256 :: d.objectID / 256 / 256 % 256 ::
          d.objectID / 256 / 256 / 256 % 256 ::
          (enc ++ [computeCrc8 0
            (0x3c :: (cmd ||| versionMask) % 256 ::
              (shortHeaderLength + fieldsByteLength d.fields) % 65536 % 256 ::
              (shortHeaderLength + fieldsByteLength d.fields) % 65536 / 256 % 256 ::
              d.objectID % 256 :: d.objectID / 256 % 256 ::
              d.objectID / 256 / 256 % 256 :: d.objectID / 256 / 256 / 256 % 256 ::
              enc)])) := by
      unfold toBinary newPacket mapToUAVTalk
      simp only [if_pos hcmd, henc, if_neg hsi, leBytes_two, leBytes_four,
        List.cons_append, List.nil_append, List.append_assoc]
    exact ⟨_, _, hbs,
      newPacketFromBinary_single reg d data cmd
        ((shortHeaderLength + fieldsByteLength d.fields) % 65536) _ enc
        hreg hid hcmd hsi2 hdec0,
      rfl, rfl, fun hf => absurd (hsi2.symm.trans hf) (by decide), rfl⟩

theorem encode_decode_roundtrip_witness :
    ∃ bs p,
      toBinary (newPacket ⟨7, "M", false, [⟨"A", "uint8", 1, 1, [], [], ""⟩]⟩ 0 5
          [("A", [9])]) = Except.ok bs ∧
      newPacketFromBinary [⟨7, "M", false, [⟨"A", "uint8", 1, 1, [], [], ""⟩]⟩] bs =
          GoResult.ok p ∧
      p.definition = ⟨7, "M", false, [⟨"A", "uint8", 1, 1, [], [], ""⟩]⟩ ∧ p.cmd = 0 ∧
      ((⟨7, "M", false, [⟨"A", "uint8", 1, 1, [], [], ""⟩]⟩ : Definition).singleInstance =
          false → p.instanceID = 5) ∧
      p.data = [("A", [9])] :=
  encode_decode_roundtrip [⟨7, "M", false, [⟨"A", "uint8", 1, 1, [], [], ""⟩]⟩]
    ⟨7, "M", false, [⟨"A", "uint8", 1, 1, [], [], ""⟩]⟩ 0 5 [("A", [9])]
    (Or.inl rfl) rfl (by decide) (by decide) (by simp [wellFormedData]) (by decide)

theorem newPacketFromBinary_unknown_id (reg : List Definition) (bp : List Nat)
    (hlen : 8 ≤ bp.length)
    (hfail : getDefinitionForObjectID reg (byteArrayToInt32 (goSlice bp 4 8)) = none) :
    newPacketFromBinary reg bp = GoResult.err "GetDefinitionForObjectID found nothing" := by
  unfold newPacketFromBinary
  rw [if_neg (by omega), if_neg (by omega), if_neg (by omega), hfail]

theorem readLoop_skips_bad_frame (reg : List Definition) (packet : List Nat)
    (r : PCResult) (m : String)
    (hpc : packetComplete packet = Except.ok r) (herr : r.err = none) (hok : r.ok = true)
    (hfb : newPacketFromBinary reg (goSlice packet r.frm r.upto) = GoResult.err m) :
    readLoop reg packet = readLoop reg (packet.drop r.upto) := by
  rw [readLoop]
  split
  · next m2 heq =>
    rw [hpc] at heq
    cases heq
  · next r2 heq =>
    rw [hpc] at heq
    injection heq with h2
    subst h2
    rw [dif_neg (show ¬(r.err = none ∧ r.ok = false) by rw [hok]; simp)]
    rw [if_pos herr, hfb]

/-- C7: a syntactically valid frame whose objectID does not resolve in
the registry makes `newPacketFromBinary` return an error (no Packet),
and the read loop drops exactly that frame — it discards the frame's
bytes and continues on the remaining buffer instead of terminating. -/
theorem unknown_object_id_drops_frame :
    (∀ (reg : List Definition) (bp : List Nat), 8 ≤ bp.length →
        getDefinitionForObjectID reg (byteArrayToInt32 (goSlice bp 4 8)) = none →
        newPacketFromBinary reg bp =
          GoResult.err "GetDefinitionForObjectID found nothing") ∧
      (∀ (reg : List Definition) (packet : List Nat) (r : PCResult) (m : String),
        packetComplete packet = Except.ok r → r.err = none → r.ok = true →
        newPacketFromBinary reg (goSlice packet r.frm r.upto) = GoResult.err m →
        readLoop reg packet = readLoop reg (packet.drop r.upto)) :=
  ⟨newPacketFromBinary_unknown_id, readLoop_skips_bad_frame⟩

set_option maxRecDepth 8192 in
theorem unknown_object_id_drops_frame_witness :
    newPacketFromBinary [⟨1, "D", true, []⟩] [60, 35, 8, 0, 2, 0, 0, 0, 41] =
        GoResult.err "GetDefinitionForObjectID found nothing" ∧
      readLoop [⟨1, "D", true, []⟩] [60, 35, 8, 0, 2, 0, 0, 0, 41] =
        readLoop [⟨1, "D", true, []⟩]
          (([60, 35, 8, 0, 2, 0, 0, 0, 41] : List Nat).drop
            (⟨true, 0, 9, none⟩ : PCResult).upto) :=
  ⟨unknown_object_id_drops_frame.1 [⟨1, "D", true, []⟩] [60, 35, 8, 0, 2, 0, 0, 0, 41]
     (by decide) (by rfl),
   unknown_object_id_drops_frame.2 [⟨1, "D", true, []⟩] [60, 35, 8, 0, 2, 0, 0, 0, 41]
     ⟨true, 0, 9, none⟩ "GetDefinitionForObjectID found nothing"
     (by rfl) rfl rfl (by rfl)⟩

theorem fieldForName_stable : ∀ (o c : List Field) (nm : String) (src : Field),
    c.length = o.length →
    (∀ k, (c.get? k).map Field.name = (o.get? k).map Field.name) →
    (∀ k fk, o.get? k = some fk → fk.cloneOf = "" → c.get? k = some fk) →
    fieldForName o nm = some src → src.cloneOf = "" →
    fieldForName c nm = some src := by
  intro o
  induction o with
  | nil =>
    intro c nm src _ _ _ hf _
    exact absurd hf (by simp [fieldForName])
  | cons f os ih =>
    intro c nm src hl hn hnc hf hsrc
    cases c with
    | nil => simp at hl
    | cons g cs =>
      have hname0 : g.name = f.name := by
        have h0 := hn 0
        simpa using h0
      unfold fieldForName at hf ⊢
      by_cases hfn : f.name = nm
      · rw [if_pos hfn] at hf
        injection hf with h2
        subst h2
        rw [if_pos (by rw [hname0]; exact hfn)]
        have h0 := hnc 0 f rfl hsrc
        simpa using h0
      · rw [if_neg hfn] at hf
        rw [if_neg (by rw [hname0]; exact hfn)]
        exact ih cs nm src (by simpa using hl) (fun k => hn (k + 1))
          (fun k fk hk hc => hnc (k + 1) fk hk hc) hf hsrc

theorem resolveClonesGo_spec (orig : List Field) :
    ∀ (n i : Nat) (c : List Field),
      c.length = orig.length →
      (∀ k, (c.get? k).map Field.name = (orig.get? k).map Field.name) →
      (∀ k fk, orig.get? k = some fk → fk.cloneOf = "" → c.get? k = some fk) →
      (∀ j, i ≤ j → c.get? j = orig.get? j) →
      ∀ out, resolveClonesGo n i c = Except.ok out →
        (∀ j, j < i → out.get? j = c.get? j) ∧
        (∀ j f src, i ≤ j → j < i + n → orig.get? j = some f → f.cloneOf ≠ "" →
          fieldForName orig f.cloneOf = some src → src.cloneOf = "" →
          out.get? j = some { src with name := f.name, cloneOf := f.cloneOf }) := by
  intro n
  induction n with
  | zero =>
    intro i c _ _ _ _ out hout
    injection hout with h2
    subst h2
    exact ⟨fun j _ => rfl, fun j f src hij hj _ _ _ _ => absurd hj (by omega)⟩
  | succ n ih =>
    intro i c hlen hnames hnc hagree out hout
    unfold resolveClonesGo at hout
    split at hout
    · exact Except.noConfusion hout
    · next c2 heq =>
      unfold resolveClonesStep at heq
      split at heq
      · next hci =>
        injection heq with h2
        subst h2
        obtain ⟨ihf, ihs⟩ := ih (i + 1) c hlen hnames hnc
          (fun j hj => hagree j (by omega)) out hout
        refine ⟨fun j hj => ihf j (by omega),
          fun j f src hij hj hof hcl hsrc hsrcnc => ?_⟩
        by_cases hji : j = i
        · subst hji
          rw [← hagree j (Nat.le_refl j), hci] at hof
          cases hof
        · exact ihs j f src (by omega) (by omega) hof hcl hsrc hsrcnc
      · next f0 hci =>
        split at heq
        · next hcl0 =>
          injection heq with h2
          subst h2
          obtain ⟨ihf, ihs⟩ := ih (i + 1) c hlen hnames hnc
            (fun j hj => hagree j (by omega)) out hout
          refine ⟨fun j hj => ihf j (by omega),
            fun j f src hij hj hof hcl hsrc hsrcnc => ?_⟩
          by_cases hji : j = i
          · subst hji
            rw [← hagree j (Nat.le_refl j), hci] at hof
            injection hof with h3
            exact absurd (h3 ▸ hcl0) hcl
          · exact ihs j f src (by omega) (by omega) hof hcl hsrc hsrcnc
        · next hcl0 =>
          split at heq
          · exact Except.noConfusion heq
          · next s hffn =>
            injection heq with h2
            subst h2
            have horigi : orig.get? i = some f0 := by
              rw [← hagree i (Nat.le_refl i)]
              exact hci
            have hlen2 : (c.set i { s with name := f0.name, cloneOf := f0.cloneOf }).length =
                orig.length := by
              rw [List.length_set]
              exact hlen
            have hget2i : (c.set i { s with name := f0.name, cloneOf := f0.cloneOf }).get? i =
                some { s with name := f0.name, cloneOf := f0.cloneOf } := by
              rw [List.get?_set_eq, hci]
              rfl
            have hnames2 : ∀ k,
                ((c.set i { s with name := f0.name, cloneOf := f0.cloneOf }).get? k).map
                  Field.name = (orig.get? k).map Field.name := by
              intro k
              by_cases hk : k = i
              · subst hk
                rw [hget2i, horigi]
                rfl
              · rw [List.get?_set_ne _ _ (Ne.symm hk)]
                exact hnames k
            have hnc2 : ∀ k fk, orig.get? k = some fk → fk.cloneOf = "" →
                (c.set i { s with name := f0.name, cloneOf := f0.cloneOf }).get? k =
                  some fk := by
              intro k fk hk hkc
              by_cases hki : k = i
              · subst hki
                rw [horigi] at hk
                injection hk with h3
                exact absurd (h3 ▸ hkc) hcl0
              · rw [List.get?_set_ne _ _ (Ne.symm hki)]
                exact hnc k fk hk hkc
            have hagree2 : ∀ j, i + 1 ≤ j →
                (c.set i { s with name := f0.name, cloneOf := f0.cloneOf }).get? j =
                  orig.get? j := by
              intro j hj
              rw [List.get?_set_ne _ _ (by omega)]
              exact hagree j (by omega)
            obtain ⟨ihf, ihs⟩ := ih (i + 1) _ hlen2 hnames2 hnc2 hagree2 out hout
            refine ⟨fun j hj =>
              (ihf j (by omega)).trans (List.get?_set_ne _ _ (by omega)),
              fun j f src hij hj hof hcl hsrc hsrcnc => ?_⟩
            by_cases hji : j = i
            · subst hji
              rw [horigi] at hof
              injection hof with h3
              subst h3
              have hstab := fieldForName_stable orig c f0.cloneOf src hlen hnames hnc
                hsrc hsrcnc
              rw [hstab] at hffn
              injection hffn with h4
              subst h4
              rw [ihf j (by omega), hget2i]
            · exact ihs j f src (by omega) (by omega) hof hcl hsrc hsrcnc

/-- C9: after a successful clone-resolution pass, a field whose
`cloneOf` names another (already resolved, non-clone) field of the same
Definition carries that source field's record — type, size, elements,
element names and options — verbatim, while keeping its own name and
its own cloneOf value. -/
theorem clone_resolution_copies_source (fields out : List Field) (i : Nat) (f src : Field)
    (hres : resolveClones fields = Except.ok out)
    (hf : fields.get? i = some f) (hcl : f.cloneOf ≠ "")
    (hsrc : fieldForName fields f.cloneOf = some src) (hsrcnc : src.cloneOf = "") :
    out.get? i = some { src with name := f.name, cloneOf := f.cloneOf } := by
  unfold resolveClones at hres
  have hi : i < fields.length := by
    by_contra hc
    rw [List.get?_eq_none.mpr (by omega)] at hf
    cases hf
  exact (resolveClonesGo_spec fields fields.length 0 fields rfl (fun k => rfl)
    (fun k fk hk _ => hk) (fun j _ => rfl) out hres).2 i f src (Nat.zero_le i)
    (by omega) hf hcl hsrc hsrcnc

theorem clone_resolution_copies_source_witness :
    ([⟨"A", "uint8", 1, 1, [], [], ""⟩,
      ⟨"B", "uint8", 1, 1, [], [], "A"⟩] : List Field).get? 1 =
      some { (⟨"A", "uint8", 1, 1, [], [], ""⟩ : Field) with
              name := "B", cloneOf := "A" } :=
  clone_resolution_copies_source
    [⟨"A", "uint8", 1, 1, [], [], ""⟩, ⟨"B", "x", 0, 0, [], [], "A"⟩]
    [⟨"A", "uint8", 1, 1, [], [], ""⟩, ⟨"B", "uint8", 1, 1, [], [], "A"⟩]
    1 ⟨"B", "x", 0, 0, [], [], "A"⟩ ⟨"A", "uint8", 1, 1, [], [], ""⟩
    (by rfl) rfl (by decide) rfl rfl

end Bridge
